import Mathlib

/-! imagepuller: a shallow embedding of `main.go`.

A Go `string` is a sequence of bytes.  It is embedded as `Str = List Char`, one
`Char` standing for one byte, so that `len`, indexing and slicing are the list
operations.  A call that can end in several ways (normal return, returned
`error`, `log.Fatalf`, run-time panic) returns an `Outcome`.
-/

namespace ImagePuller

/-- Go strings: byte sequences, one `Char` per byte. -/
abbrev Str := List Char

/-! ## The `strings` functions used by `main.go` -/

/-- The call `strings.Contains(s, sep)` for a one-byte `sep` (the source only passes
`"/"`, `":"` and `"?"`). -/
def Contains (s : Str) (sep : Char) : Bool := s.contains sep

/-- The call `strings.Split(s, sep)` for a one-byte `sep` (the source only passes
`"/"`, `":"` and `","`): `s` is cut at every occurrence of `sep`; the result
always has `Count(s, sep) + 1` entries. -/
def Split : Str → Char → List Str
  | [], _ => [[]]
  | c :: cs, sep =>
    if c = sep then [] :: Split cs sep
    else match Split cs sep with
      | [] => [[c]]
      | p :: ps => (c :: p) :: ps

/-- The call `strings.Join(parts, sep)`. -/
def Join : List Str → Str → Str
  | [], _ => []
  | [a], _ => a
  | a :: b :: rest, sep => a ++ sep ++ Join (b :: rest) sep

/-- The call `strings.HasPrefix(s, prefix)`. -/
def HasPrefix (s pre : Str) : Bool := pre.isPrefixOf s

/-- The call `strings.TrimPrefix(s, prefix)`. -/
def TrimPrefix (s pre : Str) : Str :=
  if HasPrefix s pre then s.drop pre.length else s

/-- The call `strings.TrimLeft(s, cutset)` for an ASCII cutset: drops the leading bytes
that occur in `cutset`. -/
def TrimLeft (s cutset : Str) : Str := s.dropWhile (fun c => cutset.contains c)

/-- The call `strings.TrimRight(s, cutset)` for an ASCII cutset. -/
def TrimRight (s cutset : Str) : Str := (TrimLeft s.reverse cutset).reverse

/-- The call `strings.Trim(s, cutset)`: `cutset` is a SET of bytes, every leading and
trailing byte of `s` that belongs to it is removed. -/
def Trim (s cutset : Str) : Str := TrimLeft (TrimRight s cutset) cutset

/-- The call `strings.LastIndex(s, sep)` for a one-byte `sep`; `-1` when absent. -/
def LastIndex : Str → Char → Int
  | [], _ => -1
  | c :: cs, sep =>
    match LastIndex cs sep with
    | Int.negSucc _ => if c = sep then 0 else -1
    | Int.ofNat i => Int.ofNat (i + 1)

/-- The slice expression `s[:n]`; it panics (`none`) when `n > len(s)`. -/
def sliceTo (s : Str) (n : Nat) : Option Str :=
  if n ≤ s.length then some (s.take n) else none

/-- The slice expression `s[n:]` for an `int` index; it panics (`none`) when `n` is
negative or `n > len(s)`. -/
def sliceFrom (s : Str) (n : Int) : Option Str :=
  if 0 ≤ n ∧ n.toNat ≤ s.length then some (s.drop n.toNat) else none

/-! ## Ways a call can end -/

/-- The `log.Fatalf` / `os.Exit(1)` sites of `main.go`. -/
inductive Fatal where
  | usage
  | failedToPull (err : Str)
  | newRequest
  | authFail
  | manifestStatus (statusCode : Nat)
  | decodeManifest
  | mkdir
  | pullLayer
  | invalidImage (digest : Str)
  | tokenRequest
  deriving DecidableEq, Repr

/-- How a call ends. -/
inductive Outcome (α : Type) where
  /-- normal return; for a function returning `error`, the error is `nil` -/
  | ok (a : α)
  /-- the function returns a non-nil `error` -/
  | error (msg : Str)
  /-- the process is ended by `log.Fatalf` or `os.Exit(1)` -/
  | fatal (f : Fatal)
  /-- run-time panic (index or slice out of range, nil dereference) -/
  | panic
  /-- the recursion budget of the model is used up: the call has not ended -/
  | running
  deriving DecidableEq, Repr

/-! ## `parseImagePath` -/

/-- The function `parseImagePath` (main.go 82-102).  The result triple is
`(registryHost, imageName, tag)`. -/
def parseImagePath (imagePath : Str) : Outcome (Str × Str × Str) :=
  if !Contains imagePath '/' then
    .error ("invalid image path format: ".toList ++ imagePath)
  else
    let parts := Split imagePath '/'
    match parts[0]? with
    | none => .panic
    | some registryHost =>
      let imageWithTag := Join (parts.drop 1) "/".toList
      if !Contains imageWithTag ':' then
        .ok (registryHost, imageWithTag, "latest".toList)
      else
        let imageParts := Split imageWithTag ':'
        match imageParts[0]?, imageParts[1]? with
        | some imageName, some tag => .ok (registryHost, imageName, tag)
        | _, _ => .panic

/-! ## `humanize` -/

/-- The unit table of `humanize`. -/
def units : List Str :=
  ["B".toList, "KB".toList, "MB".toList, "GB".toList, "TB".toList, "PB".toList, "EB".toList]

/-- The conversion `int64(x)` of a `uint64` value. -/
def toInt64 (x : Nat) : Int :=
  if x % 2 ^ 64 < 2 ^ 63 then ((x % 2 ^ 64 : Nat) : Int) else ((x % 2 ^ 64 : Nat) : Int) - 2 ^ 64

/-- The conversion `uint64(x)` of an `int64` value. -/
def toUint64 (x : Int) : Nat := (x % 2 ^ 64).toNat

/-- The call `strconv.FormatInt(i, 10)`. -/
def FormatInt (i : Int) : Str :=
  if i < 0 then '-' :: Nat.toDigits 10 i.natAbs else Nat.toDigits 10 i.toNat

/-- The loop `for bytes >= 1024 { bytes /= 1024; unitIndex++ }` of `humanize`; it
returns the final `(bytes, unitIndex)`. -/
def humanizeLoop (bytes unitIndex : Nat) : Nat × Nat :=
  if 1024 ≤ bytes then humanizeLoop (bytes / 1024) (unitIndex + 1) else (bytes, unitIndex)
termination_by bytes
decreasing_by omega

/-- The function `humanize` (main.go 243-252) on a `uint64` argument; `none` is the
index-out-of-range panic of `units[unitIndex]`. -/
def humanize (bytes : Nat) : Option Str :=
  let bytes := bytes * 1 % 2 ^ 64
  let r := humanizeLoop bytes 0
  match units[r.2]? with
  | none => none
  | some u => some (FormatInt (toInt64 r.1) ++ u)

/-! ## The environment: HTTP, JSON decoding, files -/

/-- A `GET` request as built by the program: the URL and the value of the
`Authorization` header (empty when the header is not set). -/
structure HttpReq where
  url : Str
  authorization : Str
  deriving DecidableEq, Repr

/-- A response body: the chunks successive reads deliver, and whether reading ends in
an error instead of EOF. -/
structure Body where
  chunks : List Str
  readError : Bool
  deriving DecidableEq, Repr

/-- A response: status code, the `Www-Authenticate` header (empty when absent), body. -/
structure HttpResp where
  statusCode : Nat
  wwwAuthenticate : Str
  body : Body
  deriving DecidableEq, Repr

/-- The type `Descriptor`: the anonymous structs of `Manifest.Config` and `Manifest.Layers`. -/
structure Descriptor where
  mediaType : Str
  size : Int
  digest : Str
  deriving DecidableEq, Repr

/-- The type `Manifest` (main.go 14-27). -/
structure Manifest where
  schemaVersion : Int
  mediaType : Str
  config : Descriptor
  layers : List Descriptor
  deriving DecidableEq, Repr

/-- What the program does not decide itself.  `http hist req` is what `client.Do(req)`
gives after the requests `hist` were issued (`none`: a transport error);
`newRequestOk url` tells whether `http.NewRequest("GET", url, nil)` succeeds;
`decodeToken` and `decodeManifest` are `json.NewDecoder(body).Decode` into the token
struct and into `Manifest` (`none`: a decode error); `mkdirAllOk` and `createOk` tell
whether `os.MkdirAll` and `os.Create` succeed on a path. -/
structure Env where
  http : List HttpReq → HttpReq → Option HttpResp
  newRequestOk : Str → Bool
  decodeToken : Body → Option Str
  decodeManifest : Body → Option Manifest
  mkdirAllOk : Str → Bool
  createOk : Str → Bool

/-- The observable state: the HTTP requests issued so far (oldest first), the files on
disk (path and contents, first entry of a path wins) and the lines written to standard
output. -/
structure World where
  requests : List HttpReq
  files : List (Str × Str)
  stdout : List Str
  deriving DecidableEq, Repr

/-- Records that `req` was sent. -/
def World.issue (w : World) (req : HttpReq) : World :=
  { w with requests := w.requests ++ [req] }

/-- Records a write to standard output. -/
def World.print (w : World) (line : Str) : World :=
  { w with stdout := w.stdout ++ [line] }

/-- File contents at `path` are replaced by `content`. -/
def World.write (w : World) (path content : Str) : World :=
  { w with files := (path, content) :: w.files.filter (fun f => f.1 != path) }

/-- The request `http.NewRequest("GET", url, nil)` with the header
`Authorization: Bearer <token>` set when `token != ""`. -/
def mkReq (url token : Str) : HttpReq :=
  { url := url, authorization := if token ≠ [] then "Bearer ".toList ++ token else [] }

/-! ## `getJWT` -/

/-- The double quote byte. -/
def dquote : Char := Char.ofNat 34

/-- Body of the `for _, field := range headerFields` loop of `getJWT`; the state is
`(realm, service, scope)`. -/
def scanField (acc : Str × Str × Str) (field : Str) : Str × Str × Str :=
  if HasPrefix field "realm=".toList then
    (Trim (Trim field "realm=".toList) [dquote], acc.2.1, acc.2.2)
  else if HasPrefix field "service=".toList then
    (acc.1, Trim (Trim field "service=".toList) [dquote], acc.2.2)
  else if HasPrefix field "scope=".toList then
    (acc.1, acc.2.1, Trim (Trim field "scope=".toList) [dquote])
  else acc

/-- Lines 254-271 of `getJWT`: the `(realm, service, scope)` extracted from a header. -/
def challengeFields (header : Str) : Str × Str × Str :=
  let header := TrimPrefix header "Bearer ".toList
  let headerFields := Split header ','
  headerFields.foldl scanField ([], [], [])

/-- Lines 275-280 of `getJWT`: the token-exchange URL. -/
def tokenURL (realm service scope : Str) : Str :=
  let url := realm
  if Contains url '?' then
    url ++ "&scope=".toList ++ scope ++ "&service=".toList ++ service
  else
    url ++ "?cope=".toList ++ scope ++ "&service=".toList ++ service

/-- The function `getJWT` (main.go 253-299). -/
def getJWT (env : Env) (w : World) (header : Str) : Outcome Str × World :=
  let c := challengeFields header
  let realm := c.1
  let service := c.2.1
  let scope := c.2.2
  if realm = [] ∨ scope = [] ∨ service = [] then
    (.error "Error parsing WWW-Authenticate header".toList, w)
  else
    let url := tokenURL realm service scope
    if !env.newRequestOk url then (.fatal .tokenRequest, w)
    else
      let req := mkReq url []
      match env.http w.requests req with
      | none => (.fatal .tokenRequest, w.issue req)
      | some res =>
        match env.decodeToken res.body with
        | none => (.error "decode".toList, w.issue req)
        | some token => (.ok token, w.issue req)

/-! ## `downloadFileWithProgress` -/

/-- The method `WriteCounter.PrintProgress`: the two `Printf` calls; `none` when
`humanize` panics. -/
def printProgress (w : World) (filename : Str) (Size : Int) (Total : Nat) : Option World :=
  match humanize Total, humanize (toUint64 Size) with
  | some t, some s =>
    some ((w.print ('\r' :: List.replicate 40 ' ')).print
      ('\r' :: filename ++ ":Downloading ".toList ++ t ++ "/".toList ++ s))
  | _, _ => none

/-- The call `io.Copy(out, io.TeeReader(resp.Body, counter))` on the chunks still to be
read.  A read that delivers no byte reaches neither `WriteCounter.Write` nor the file;
every other chunk goes through `WriteCounter.Write` (which adds its length to `Total`
and prints the progress) and is appended to the file `dest`, whose contents so far are
`written`; `none` when `humanize` panics. -/
def copyChunks (dest filename : Str) (Size : Int) :
    List Str → Nat → Str → World → Option World
  | [], _, _, w => some w
  | p :: ps, Total, written, w =>
    if p.length = 0 then copyChunks dest filename Size ps Total written w
    else
      let Total := (Total + p.length) % 2 ^ 64
      match printProgress w filename Size Total with
      | none => none
      | some w =>
        copyChunks dest filename Size ps Total (written ++ p) (w.write dest (written ++ p))

/-- Lines 200-221 of `downloadFileWithProgress`: what follows a response that is not a
401. -/
def saveBody (env : Env) (w : World) (resp : HttpResp) (dest : Str) (Size : Int)
    (filename : Str) : Outcome Unit × World :=
  let skip : Bool :=
    match w.files.lookup dest with
    | some content => decide ((content.length : Int) = Size)
    | none => false
  if skip then (.ok (), w)
  else if !env.createOk dest then (.error "create".toList, w)
  else
    match copyChunks dest filename Size resp.body.chunks 0 [] (w.write dest []) with
    | none => (.panic, w.write dest [])
    | some w => if resp.body.readError then (.error "copy".toList, w) else (.ok (), w)

/-- The function `downloadFileWithProgress` (main.go 179-222).  The first argument
bounds the depth of the recursive calls of line 198; `running` is returned when it
is used up. -/
def downloadFileWithProgress (env : Env) :
    Nat → World → Str → Str → Int → Str → Str → Outcome Unit × World
  | 0, w, _, _, _, _, _ => (.running, w)
  | fuel + 1, w, url, dest, Size, filename, token =>
    if !env.newRequestOk url then (.fatal .newRequest, w)
    else
      let req := mkReq url token
      match env.http w.requests req with
      | none => (.error "client.Do".toList, w.issue req)
      | some resp =>
        if resp.statusCode = 401 then
          match getJWT env (w.issue req) resp.wwwAuthenticate with
          | (.ok token, w) => downloadFileWithProgress env fuel w url dest Size filename token
          | (.error _, w) => (.fatal .authFail, w)
          | (.fatal f, w) => (.fatal f, w)
          | (.panic, w) => (.panic, w)
          | (.running, w) => (.running, w)
        else saveBody env (w.issue req) resp dest Size filename

/-! ## `handlePull` -/

/-- The destination directory `"./images/" + registryHost + "/" + name + "/" + tag`. -/
def imageDir (registryHost name tag : Str) : Str :=
  "./images/".toList ++ registryHost ++ "/".toList ++ name ++ "/".toList ++ tag

/-- The URL `fmt.Sprintf("https://%s/v2/%s/blobs/%s", registryHost, imageName, digest)`. -/
def blobURL (registryHost imageName digest : Str) : Str :=
  "https://".toList ++ registryHost ++ "/v2/".toList ++ imageName ++ "/blobs/".toList ++ digest

/-- The three `Print` calls after a finished download. -/
def printComplete (w : World) (label : Str) : World :=
  ((w.print ('\r' :: List.replicate 35 ' ')).print
    ('\r' :: label ++ ":Download complete!".toList)).print "\n".toList

/-- Body of the loop `for _, v := range m.Layers` of `handlePull` (lines 164-175). -/
def layerStep (env : Env) (fuel : Nat) (w : World) (registryHost imageName name tag token : Str)
    (v : Descriptor) : Outcome Unit × World :=
  let parts := Split v.digest ':'
  if parts.length ≠ 2 then (.fatal (.invalidImage v.digest), w)
  else
    match parts[1]? with
    | none => (.panic, w)
    | some hex =>
      let url := blobURL registryHost imageName v.digest
      let dest := imageDir registryHost name tag ++ "/".toList ++ hex ++ ".tar".toList
      match sliceTo hex 5 with
      | none => (.panic, w)
      | some label =>
        match downloadFileWithProgress env fuel w url dest v.size label token with
        | (.ok _, w) => (.ok (), printComplete w label)
        | (.error _, w) => (.fatal .pullLayer, w)
        | (.fatal f, w) => (.fatal f, w)
        | (.panic, w) => (.panic, w)
        | (.running, w) => (.running, w)

/-- The loop `for _, v := range m.Layers` of `handlePull`. -/
def pullLayers (env : Env) (fuel : Nat) (registryHost imageName name tag token : Str) :
    World → List Descriptor → Outcome Unit × World
  | w, [] => (.ok (), w)
  | w, v :: vs =>
    match layerStep env fuel w registryHost imageName name tag token v with
    | (.ok _, w) => pullLayers env fuel registryHost imageName name tag token w vs
    | r => r

/-- Lines 146-176 of `handlePull`: what follows the decoding of the manifest. -/
def pullBlobs (env : Env) (fuel : Nat) (w : World) (registryHost imageName tag token : Str)
    (m : Manifest) : Outcome Unit × World :=
  let w := w.print "m:\n".toList
  let url := blobURL registryHost imageName m.config.digest
  let name? : Option Str :=
    if Contains imageName '/' then sliceFrom imageName (LastIndex imageName '/' + 1)
    else some imageName
  match name? with
  | none => (.panic, w)
  | some name =>
    if !env.mkdirAllOk (imageDir registryHost name tag) then (.fatal .mkdir, w)
    else
      match downloadFileWithProgress env fuel w url
          (imageDir registryHost name tag ++ "/config.json".toList) m.config.size
          "config.json".toList token with
      | (.ok _, w) =>
        pullLayers env fuel registryHost imageName name tag token
          (printComplete w "config.json".toList) m.layers
      | (.error _, w) => (.fatal .pullLayer, w)
      | (.fatal f, w) => (.fatal f, w)
      | (.panic, w) => (.panic, w)
      | (.running, w) => (.running, w)

/-- The function `handlePull` (main.go 104-178); `args` is `os.Args`.  The first argument
bounds the depth of the recursive calls (line 133 and line 198); `running` is
returned when it is used up. -/
def handlePull (env : Env) : Nat → World → List Str → Str → Outcome Unit × World
  | 0, w, _, _ => (.running, w)
  | fuel + 1, w, args, token =>
    if args.length ≠ 3 then
      match args[0]? with
      | none => (.panic, w)
      | some arg0 =>
        (.fatal .usage, w.print ("Usage: ".toList ++ arg0 ++ " pull <repository>\n".toList))
    else
      match args[2]? with
      | none => (.panic, w)
      | some repo =>
        match parseImagePath repo with
        | .error e => (.fatal (.failedToPull e), w)
        | .fatal f => (.fatal f, w)
        | .panic => (.panic, w)
        | .running => (.running, w)
        | .ok (registryHost, imageName, tag) =>
          let url := "https://".toList ++ registryHost ++ "/v2/".toList ++ imageName
            ++ "/manifests/".toList ++ tag
          if !env.newRequestOk url then (.fatal .newRequest, w)
          else
            let req := mkReq url token
            match env.http w.requests req with
            | none => (.panic, w.issue req)
            | some res =>
              let w := w.issue req
              if res.statusCode ≠ 200 then
                if res.statusCode = 401 ∧ token = [] then
                  match getJWT env w res.wwwAuthenticate with
                  | (.ok token, w) => handlePull env fuel w args token
                  | (.error _, w) => (.fatal .authFail, w)
                  | (.fatal f, w) => (.fatal f, w)
                  | (.panic, w) => (.panic, w)
                  | (.running, w) => (.running, w)
                else (.fatal (.manifestStatus res.statusCode), w)
              else
                match env.decodeManifest res.body with
                | none => (.fatal .decodeManifest, w)
                | some m => pullBlobs env fuel w registryHost imageName tag token m

/-! ## Vocabulary of the statements -/

/-- The text after the first `sep` of `s` (empty when `s` has no `sep`). -/
def afterFirst (s : Str) (sep : Char) : Str := (s.dropWhile (fun x => x != sep)).drop 1

/-- The text before the first `sep` of `s` (all of `s` when it has no `sep`). -/
def beforeFirst (s : Str) (sep : Char) : Str := s.takeWhile (fun x => x != sep)

/-- The comma-separated fields of a challenge header, its leading `Bearer ` removed. -/
def headerFields (header : Str) : List Str :=
  Split (TrimPrefix header "Bearer ".toList) ','

/-- In `header` the field `key=` is missing or has an empty value: every field that
starts with `key=` is `key=` itself or `key=""`. -/
def missingOrEmpty (key header : Str) : Prop :=
  ∀ f ∈ headerFields header, HasPrefix f (key ++ "=".toList) = true →
    f = key ++ "=".toList ∨ f = key ++ "=".toList ++ [dquote, dquote]

/-- The value `v` written between double quotes. -/
def quoted (v : Str) : Str := dquote :: v ++ [dquote]

/-- The header `Bearer realm=r,service=s,scope=c`, where `r`, `s`, `c` are the values as
written (bare or quoted). -/
def bearerChallenge (r s c : Str) : Str :=
  "Bearer ".toList ++ (("realm=".toList ++ r) ++ ',' :: (("service=".toList ++ s) ++ ',' ::
    ("scope=".toList ++ c)))

/-- A bearer challenge with quoted values, as registries send it. -/
def quotedChallenge : Str :=
  "Bearer realm=".toList ++ dquote :: "https://auth.example.com/token".toList ++ dquote ::
  ",service=".toList ++ dquote :: "registry.example.com".toList ++ dquote ::
  ",scope=".toList ++ dquote :: "repository:library/app:pull".toList ++ [dquote]

/-- The JSON text of a token reply carrying the token `t`. -/
def tokenJSON : Str :=
  '\x7b' :: dquote :: "token".toList ++ dquote :: ':' :: dquote :: 't' :: dquote :: ['\x7d']

/-- A registry that answers 401 with `quotedChallenge` to every request, whatever its
`Authorization` header; the realm `https://auth.example.com/` answers with the token
`t`. -/
def registry401 : Env where
  http := fun _ req =>
    if HasPrefix req.url "https://auth.example.com/".toList then
      some { statusCode := 200, wwwAuthenticate := [], body := { chunks := [tokenJSON], readError := false } }
    else
      some { statusCode := 401, wwwAuthenticate := quotedChallenge, body := { chunks := [], readError := false } }
  newRequestOk := fun _ => true
  decodeToken := fun b => if b.chunks.flatten = tokenJSON then some "t".toList else none
  decodeManifest := fun _ => none
  mkdirAllOk := fun _ => true
  createOk := fun _ => true

/-- A registry that answers 200 with a ten-byte body to every request. -/
def registry200 : Env where
  http := fun _ _ =>
    some { statusCode := 200, wwwAuthenticate := [], body := { chunks := ["0123456789".toList], readError := false } }
  newRequestOk := fun _ => true
  decodeToken := fun _ => none
  decodeManifest := fun _ => none
  mkdirAllOk := fun _ => true
  createOk := fun _ => true

/-- A network on which every request fails. -/
def offline : Env where
  http := fun _ _ => none
  newRequestOk := fun _ => true
  decodeToken := fun _ => none
  decodeManifest := fun _ => none
  mkdirAllOk := fun _ => true
  createOk := fun _ => true

/-- A world with nothing sent, nothing printed and no file. -/
def emptyWorld : World := { requests := [], files := [], stdout := [] }

/-- A world whose only file is the ten-byte `./images/r.io/app/v1/deadbeef.tar`. -/
def layerOnDisk : World :=
  { requests := [], files := [("./images/r.io/app/v1/deadbeef.tar".toList, "0123456789".toList)],
    stdout := [] }

/-- A registry that answers 401 with `quotedChallenge` to a blob request without the
header `Authorization: Bearer t` and 200 with a ten-byte body to one with it; the realm
`https://auth.example.com/` answers with the token `t`. -/
def registryAuth : Env where
  http := fun _ req =>
    if HasPrefix req.url "https://auth.example.com/".toList then
      some { statusCode := 200, wwwAuthenticate := [], body := { chunks := [tokenJSON], readError := false } }
    else if req.authorization = "Bearer t".toList then
      some { statusCode := 200, wwwAuthenticate := [], body := { chunks := ["0123456789".toList], readError := false } }
    else
      some { statusCode := 401, wwwAuthenticate := quotedChallenge, body := { chunks := [], readError := false } }
  newRequestOk := fun _ => true
  decodeToken := fun b => if b.chunks.flatten = tokenJSON then some "t".toList else none
  decodeManifest := fun _ => none
  mkdirAllOk := fun _ => true
  createOk := fun _ => true

/-- The world and the token after `n` rounds of the challenge protocol for `url`: in each
round the GET for `url` with the current token is answered 401 and the token exchange
gives the next token.  `none` when a round does not go that way. -/
def retryRounds (env : Env) (url : Str) : Nat → World → Str → Option (World × Str)
  | 0, w, token => some (w, token)
  | n + 1, w, token =>
    match env.http w.requests (mkReq url token) with
    | none => none
    | some resp =>
      if resp.statusCode = 401 then
        match getJWT env (w.issue (mkReq url token)) resp.wwwAuthenticate with
        | (.ok t, w1) => retryRounds env url n w1 t
        | _ => none
      else none

/-- Number of requests of `w` sent to `url`. -/
def sentTo (w : World) (url : Str) : Nat :=
  (w.requests.filter (fun r => decide (r.url = url))).length

/-! ## Lemmas on the string functions -/

theorem Contains_iff (s : Str) (c : Char) : Contains s c = true ↔ c ∈ s := by
  simp [Contains]

theorem Contains_false_iff (s : Str) (c : Char) : Contains s c = false ↔ c ∉ s := by
  rw [← Contains_iff]; simp

theorem Split_ne_nil (s : Str) (c : Char) : Split s c ≠ [] := by
  induction s with
  | nil => simp [Split]
  | cons a as ih =>
    unfold Split
    split
    · simp
    · split <;> simp

theorem Split_cons_ne (a c : Char) (as : Str) (h : a ≠ c) :
    Split (a :: as) c = (a :: (Split as c).headD []) :: (Split as c).tail := by
  have hne := Split_ne_nil as c
  rw [Split, if_neg h]
  cases hs : Split as c with
  | nil => exact absurd hs hne
  | cons p ps => simp

theorem Split_of_not_mem (s : Str) (c : Char) (h : c ∉ s) : Split s c = [s] := by
  induction s with
  | nil => simp [Split]
  | cons a as ih =>
    have ha : a ≠ c := fun e => h (by simp [e])
    have has : c ∉ as := fun e => h (by simp [e])
    rw [Split_cons_ne a c as ha, ih has]; simp

theorem Split_append_sep (h r : Str) (c : Char) (hc : c ∉ h) :
    Split (h ++ c :: r) c = h :: Split r c := by
  induction h with
  | nil => simp [Split]
  | cons a as ih =>
    have ha : a ≠ c := fun e => hc (by simp [e])
    have has : c ∉ as := fun e => hc (by simp [e])
    rw [List.cons_append, Split_cons_ne a c _ ha, ih has]; simp

theorem Split_head (s : Str) (c : Char) :
    (Split s c)[0]? = some (s.takeWhile (fun x => x != c)) := by
  induction s with
  | nil => simp [Split]
  | cons a as ih =>
    by_cases ha : a = c
    · subst ha; simp [Split, List.takeWhile]
    · rw [Split_cons_ne a c as ha]
      have : (a != c) = true := by simpa using ha
      simp [List.takeWhile, this]
      cases hs : Split as c with
      | nil => exact absurd hs (Split_ne_nil as c)
      | cons p ps =>
        rw [hs] at ih
        simpa using ih

theorem Join_Split (s : Str) (c : Char) : Join (Split s c) [c] = s := by
  induction s with
  | nil => simp [Split, Join]
  | cons a as ih =>
    by_cases ha : a = c
    · subst ha
      rw [Split, if_pos rfl]
      cases hs : Split as a with
      | nil => exact absurd hs (Split_ne_nil as a)
      | cons p ps => rw [hs] at ih; simp [Join, ih]
    · rw [Split_cons_ne a c as ha]
      cases hs : Split as c with
      | nil => exact absurd hs (Split_ne_nil as c)
      | cons p ps =>
        rw [hs] at ih
        cases ps with
        | nil => simpa [Join] using ih
        | cons q qs => simp only [List.headD_cons, List.tail_cons, Join] at ih ⊢; simp [← ih]

theorem takeWhile_ne_of_not_mem (s : Str) (c : Char) (h : c ∉ s) :
    s.takeWhile (fun x => x != c) = s := by
  rw [List.takeWhile_eq_self_iff]
  intro x hx
  have : x ≠ c := fun e => h (e ▸ hx)
  simpa using this

theorem takeWhile_ne_append (h r : Str) (c : Char) (hc : c ∉ h) :
    (h ++ c :: r).takeWhile (fun x => x != c) = h := by
  induction h with
  | nil => simp [List.takeWhile]
  | cons a as ih =>
    have ha : a ≠ c := fun e => hc (by simp [e])
    have has : c ∉ as := fun e => hc (by simp [e])
    have : (a != c) = true := by simpa using ha
    simp [List.takeWhile, this, ih has]

theorem dropWhile_ne_append (h r : Str) (c : Char) (hc : c ∉ h) :
    (h ++ c :: r).dropWhile (fun x => x != c) = c :: r := by
  induction h with
  | nil => simp [List.dropWhile]
  | cons a as ih =>
    have ha : a ≠ c := fun e => hc (by simp [e])
    have has : c ∉ as := fun e => hc (by simp [e])
    have : (a != c) = true := by simpa using ha
    simp [List.dropWhile, this, ih has]

/-- Every string containing `c` is cut at the first `c`. -/
theorem exists_first_sep (s : Str) (c : Char) (h : c ∈ s) :
    ∃ a b, s = a ++ c :: b ∧ c ∉ a := by
  induction s with
  | nil => simp at h
  | cons x xs ih =>
    by_cases hx : x = c
    · exact ⟨[], xs, by simp [hx], by simp⟩
    · have : c ∈ xs := by
        rcases List.mem_cons.mp h with e | e
        · exact absurd e.symm hx
        · exact e
      obtain ⟨a, b, hab, hca⟩ := ih this
      refine ⟨x :: a, b, by simp [hab], ?_⟩
      simp only [List.mem_cons, not_or]
      exact ⟨fun e => hx e.symm, hca⟩

/-! ## `parseImagePath`: what it returns -/

theorem parseImagePath_cut (h r : Str) (hh : '/' ∉ h) :
    parseImagePath (h ++ '/' :: r) =
      if ':' ∈ r then .ok (h, beforeFirst r ':', beforeFirst (afterFirst r ':') ':')
      else .ok (h, r, "latest".toList) := by
  have hc : Contains (h ++ '/' :: r) '/' = true := by simp [Contains]
  have hj : Join (Split r '/') "/".toList = r := Join_Split r '/'
  unfold parseImagePath
  simp only [hc, Split_append_sep h r '/' hh, List.drop_one, List.tail_cons, hj]
  simp only [Bool.not_true, Bool.false_eq_true, if_false, List.getElem?_cons_zero]
  by_cases hr : ':' ∈ r
  · obtain ⟨a, b, hab, hca⟩ := exists_first_sep r ':' hr
    have hcr : Contains r ':' = true := (Contains_iff r ':').2 hr
    simp only [hcr, hr, if_true, Bool.not_true, Bool.false_eq_true, if_false]
    subst hab
    rw [Split_append_sep a b ':' hca]
    simp only [List.getElem?_cons_zero, List.getElem?_cons_succ, Split_head]
    simp [beforeFirst, afterFirst, takeWhile_ne_append a b ':' hca,
      dropWhile_ne_append a b ':' hca]
  · have hcr : Contains r ':' = false := (Contains_false_iff r ':').2 hr
    simp [hcr, hr]

/-- C7: a reference `h/r` whose text `r` after the first "/" has no ":" parses to host
`h` (the text before the first "/"), repository `r` (all of the text after the first
"/", later "/" kept) and tag "latest". -/
theorem parseImagePath_default_tag (h r : Str) (hh : '/' ∉ h) (hr : ':' ∉ r) :
    parseImagePath (h ++ '/' :: r) = .ok (h, r, "latest".toList) := by
  rw [parseImagePath_cut h r hh, if_neg hr]

theorem parseImagePath_default_tag_witness :
    parseImagePath ("reg.io".toList ++ '/' :: "lib/app".toList)
      = .ok ("reg.io".toList, "lib/app".toList, "latest".toList) :=
  parseImagePath_default_tag "reg.io".toList "lib/app".toList (by decide) (by decide)

/-- C4, as stated, fails: on `h/r:a:b` the text after the first ":" of the remainder is
`a:b`, the tag returned is `a`. -/
theorem parseImagePath_tag_not_whole_rest :
    Contains "h/r:a:b".toList '/' = true ∧
    afterFirst "h/r:a:b".toList '/' = "r:a:b".toList ∧
    afterFirst "r:a:b".toList ':' = "a:b".toList ∧
    parseImagePath "h/r:a:b".toList = .ok ("h".toList, "r".toList, "a".toList) ∧
    parseImagePath "h/r:a:b".toList ≠ .ok ("h".toList, "r".toList, "a:b".toList) := by
  decide

/-- C4, amended: for a reference `h/r:t` (`h` without "/", `r` without ":"),
parseImagePath succeeds with repository `r` and with tag the part of `t` before its
first ":" (all of `t` when it has none); the text from a second ":" on is dropped. -/
theorem parseImagePath_tag_first_segment (h r t : Str) (hh : '/' ∉ h) (hr : ':' ∉ r) :
    parseImagePath (h ++ '/' :: (r ++ ':' :: t)) = .ok (h, r, beforeFirst t ':') := by
  rw [parseImagePath_cut h _ hh, if_pos (by simp)]
  simp [beforeFirst, afterFirst, takeWhile_ne_append r t ':' hr,
    dropWhile_ne_append r t ':' hr]

theorem parseImagePath_tag_first_segment_witness :
    parseImagePath ("h".toList ++ '/' :: ("r".toList ++ ':' :: "a:b".toList))
      = .ok ("h".toList, "r".toList, beforeFirst "a:b".toList ':') :=
  parseImagePath_tag_first_segment "h".toList "r".toList "a:b".toList (by decide) (by decide)

/-- C9, as stated, fails: `/r` parses with an empty registry host, `h/` and `h/:t` with
an empty repository. -/
theorem parseImagePath_empty_components :
    parseImagePath "/r".toList = .ok ([], "r".toList, "latest".toList) ∧
    parseImagePath "h/".toList = .ok ("h".toList, [], "latest".toList) ∧
    parseImagePath "h/:t".toList = .ok ("h".toList, [], "t".toList) := by
  decide

/-- C9, amended: when parseImagePath succeeds, the registry host is the text before the
first "/" and the repository is the text after the first "/" up to its first ":"; so
the host is non-empty exactly when the reference does not begin with "/", and the
repository is non-empty exactly when the text after the first "/" is non-empty and does
not begin with ":". -/
theorem parseImagePath_components (s host repo tag : Str)
    (hok : parseImagePath s = .ok (host, repo, tag)) :
    host = beforeFirst s '/' ∧ repo = beforeFirst (afterFirst s '/') ':' ∧
    (host ≠ [] ↔ s.head? ≠ some '/') ∧
    (repo ≠ [] ↔ afterFirst s '/' ≠ [] ∧ (afterFirst s '/').head? ≠ some ':') := by
  have hs : '/' ∈ s := by
    by_contra hn
    have : Contains s '/' = false := (Contains_false_iff s '/').2 hn
    simp [parseImagePath, this] at hok
  obtain ⟨h, r, rfl, hh⟩ := exists_first_sep s '/' hs
  have hb : beforeFirst (h ++ '/' :: r) '/' = h := takeWhile_ne_append h r '/' hh
  have ha : afterFirst (h ++ '/' :: r) '/' = r := by
    simp [afterFirst, dropWhile_ne_append h r '/' hh]
  rw [parseImagePath_cut h r hh] at hok
  have hhost : host = h := by
    split at hok <;> simp at hok <;> exact hok.1.symm
  have hrepo : repo = beforeFirst r ':' := by
    split at hok
    · simp at hok; exact hok.2.1.symm
    · rename_i hr
      simp at hok
      rw [← hok.2.1]
      exact (takeWhile_ne_of_not_mem r ':' hr).symm
  rw [hb, ha]
  refine ⟨hhost, hrepo, ?_, ?_⟩
  · subst hhost
    cases host with
    | nil => simp
    | cons a as =>
      have : a ≠ '/' := fun e => hh (by simp [e])
      simp [this]
  · subst hrepo
    cases r with
    | nil => simp [beforeFirst]
    | cons a as =>
      by_cases hc : a = ':'
      · simp [beforeFirst, hc, List.takeWhile]
      · have : (a != ':') = true := by simpa using hc
        simp [beforeFirst, hc, List.takeWhile, this]

theorem parseImagePath_components_witness :
    "reg.io".toList = beforeFirst "reg.io/app:v1".toList '/' ∧
    "app".toList = beforeFirst (afterFirst "reg.io/app:v1".toList '/') ':' ∧
    ("reg.io".toList ≠ [] ↔ "reg.io/app:v1".toList.head? ≠ some '/') ∧
    ("app".toList ≠ [] ↔ afterFirst "reg.io/app:v1".toList '/' ≠ [] ∧
      (afterFirst "reg.io/app:v1".toList '/').head? ≠ some ':') :=
  parseImagePath_components "reg.io/app:v1".toList "reg.io".toList "app".toList "v1".toList
    (by decide)

/-! ## `humanize` -/

theorem humanizeLoop_spec (b : Nat) : ∀ i : Nat, ∃ k : Nat,
    humanizeLoop b i = (b / 1024 ^ k, i + k) ∧ b / 1024 ^ k < 1024 ∧
      (k = 0 ∨ 1024 ^ k ≤ b) ∧ b < 1024 ^ (k + 1) := by
  induction b using Nat.strong_induction_on with
  | _ b ih =>
    intro i
    by_cases hb : 1024 ≤ b
    · obtain ⟨k, hk, hlt, hle, hub⟩ := ih (b / 1024) (by omega) (i + 1)
      refine ⟨k + 1, ?_, ?_, Or.inr ?_, ?_⟩
      · rw [humanizeLoop, if_pos hb, hk, pow_succ', ← Nat.div_div_eq_div_mul]
        congr 1; omega
      · rw [pow_succ', ← Nat.div_div_eq_div_mul]; exact hlt
      · rcases hle with h0 | hle
        · subst h0; simpa using hb
        · rw [pow_succ]
          calc 1024 ^ k * 1024 ≤ b / 1024 * 1024 := Nat.mul_le_mul_right _ hle
            _ ≤ b := Nat.div_mul_le_self b 1024
      · rw [pow_succ]
        exact (Nat.div_lt_iff_lt_mul (by norm_num)).1 hub
    · refine ⟨0, ?_, ?_, Or.inl rfl, ?_⟩
      · rw [humanizeLoop, if_neg hb]; simp
      · simpa using hb
      · simpa using hb

theorem FormatInt_small (x : Nat) (hx : x < 1024) : FormatInt (toInt64 x) = Nat.toDigits 10 x := by
  have h1 : x % 2 ^ 64 = x := Nat.mod_eq_of_lt (by omega)
  have h2 : x < 2 ^ 63 := by omega
  unfold FormatInt toInt64
  rw [h1, if_pos h2]
  have h3 : ¬ ((x : Int) < 0) := by omega
  rw [if_neg h3, Int.toNat_ofNat]

/-- C10: for every unsigned 64-bit `n`, `humanize n` does not index outside the
seven-entry unit table and is the decimal rendering of `n / 1024 ^ k` (floor division)
followed by the `k`-th of the units B, KB, MB, GB, TB, PB, EB, where `k` is the largest
index with `1024 ^ k ≤ n` (`k = 0` when `n < 1024`); the numeric part is below 1024.  And `humanize 0 = "0B"`,
`humanize 1024 = "1KB"`, `humanize 1536 = "1KB"`. -/
theorem humanize_spec :
    (∀ n : Nat, n < 2 ^ 64 → ∃ k u, k < 7 ∧
      ["B".toList, "KB".toList, "MB".toList, "GB".toList, "TB".toList, "PB".toList,
        "EB".toList][k]? = some u ∧
      humanize n = some (Nat.toDigits 10 (n / 1024 ^ k) ++ u) ∧
      n / 1024 ^ k < 1024 ∧ (n < 1024 → k = 0) ∧ (1024 ≤ n → 1024 ^ k ≤ n) ∧
      (∀ j, 1024 ^ j ≤ n → j ≤ k)) ∧
    humanize 0 = some "0B".toList ∧ humanize 1024 = some "1KB".toList ∧
    humanize 1536 = some "1KB".toList := by
  refine ⟨?_, ?_, ?_, ?_⟩
  · intro n hn
    obtain ⟨k, hk, hlt, hle, hub⟩ := humanizeLoop_spec n 0
    have hk7 : k < 7 := by
      by_contra h
      have h7 : 7 ≤ k := by omega
      rcases hle with h0 | hle
      · omega
      · have : 1024 ^ 7 ≤ 1024 ^ k := Nat.pow_le_pow_right (by norm_num) h7
        have h2 : (1024 : Nat) ^ 7 = 2 ^ 64 * 64 := by norm_num
        omega
    have hu : ∃ u, units[k]? = some u := by
      have : k < units.length := by simpa [units] using hk7
      exact ⟨units[k], List.getElem?_eq_getElem this⟩
    obtain ⟨u, hu⟩ := hu
    refine ⟨k, u, hk7, hu, ?_, hlt, ?_, ?_, ?_⟩
    · have hmod : n * 1 % 2 ^ 64 = n := by rw [Nat.mul_one]; exact Nat.mod_eq_of_lt hn
      simp only [humanize, hmod, hk, Nat.zero_add, hu, FormatInt_small _ hlt]
    · intro hsmall
      rcases hle with h0 | hle
      · exact h0
      · by_contra hk0
        have : 1024 ^ 1 ≤ 1024 ^ k := Nat.pow_le_pow_right (by norm_num) (by omega)
        omega
    · intro _
      rcases hle with h0 | hle
      · subst h0; simp; omega
      · exact hle
    · intro j hj
      by_contra h
      have : 1024 ^ (k + 1) ≤ 1024 ^ j := Nat.pow_le_pow_right (by norm_num) (by omega)
      omega
  · simp [humanize, humanizeLoop, units, FormatInt, toInt64]; decide
  · simp [humanize, humanizeLoop, units, FormatInt, toInt64]; decide
  · simp [humanize, humanizeLoop, units, FormatInt, toInt64]; decide

theorem humanize_spec_witness :
    ∃ k u, k < 7 ∧
      ["B".toList, "KB".toList, "MB".toList, "GB".toList, "TB".toList, "PB".toList,
        "EB".toList][k]? = some u ∧
      humanize 1048577 = some (Nat.toDigits 10 (1048577 / 1024 ^ k) ++ u) ∧
      1048577 / 1024 ^ k < 1024 ∧ (1048577 < 1024 → k = 0) ∧ (1024 ≤ 1048577 → 1024 ^ k ≤ 1048577) ∧
      (∀ j, 1024 ^ j ≤ 1048577 → j ≤ k) :=
  humanize_spec.1 1048577 (by decide)

/-! ## `getJWT` -/

theorem scanField_realm (acc : Str × Str × Str) (f : Str) (hacc : acc.1 = [])
    (hf : HasPrefix f ("realm".toList ++ "=".toList) = true →
      f = "realm".toList ++ "=".toList ∨ f = "realm".toList ++ "=".toList ++ [dquote, dquote]) :
    (scanField acc f).1 = [] := by
  unfold scanField
  split_ifs with h1 h2 h3
  · rcases hf h1 with rfl | rfl <;> (show Trim (Trim _ _) _ = []; decide)
  all_goals exact hacc

theorem scanField_service (acc : Str × Str × Str) (f : Str) (hacc : acc.2.1 = [])
    (hf : HasPrefix f ("service".toList ++ "=".toList) = true →
      f = "service".toList ++ "=".toList ∨ f = "service".toList ++ "=".toList ++ [dquote, dquote]) :
    (scanField acc f).2.1 = [] := by
  unfold scanField
  split_ifs with h1 h2 h3
  · exact hacc
  · rcases hf h2 with rfl | rfl <;> (show Trim (Trim _ _) _ = []; decide)
  all_goals exact hacc

theorem scanField_scope (acc : Str × Str × Str) (f : Str) (hacc : acc.2.2 = [])
    (hf : HasPrefix f ("scope".toList ++ "=".toList) = true →
      f = "scope".toList ++ "=".toList ∨ f = "scope".toList ++ "=".toList ++ [dquote, dquote]) :
    (scanField acc f).2.2 = [] := by
  unfold scanField
  split_ifs with h1 h2 h3
  · exact hacc
  · exact hacc
  · rcases hf h3 with rfl | rfl <;> (show Trim (Trim _ _) _ = []; decide)
  · exact hacc

theorem challengeFields_realm (header : Str) (h : missingOrEmpty "realm".toList header) :
    (challengeFields header).1 = [] := by
  have key : ∀ (fs : List Str) (acc : Str × Str × Str), acc.1 = [] →
      (∀ f ∈ fs, HasPrefix f ("realm".toList ++ "=".toList) = true →
        f = "realm".toList ++ "=".toList ∨ f = "realm".toList ++ "=".toList ++ [dquote, dquote]) →
      (fs.foldl scanField acc).1 = [] := by
    intro fs
    induction fs with
    | nil => intro acc hacc _; simpa using hacc
    | cons f fs ih =>
      intro acc hacc hfs
      rw [List.foldl_cons]
      exact ih _ (scanField_realm acc f hacc (hfs f (List.mem_cons_self _ _)))
        (fun g hg => hfs g (List.mem_cons_of_mem _ hg))
  exact key _ _ rfl h

theorem challengeFields_service (header : Str) (h : missingOrEmpty "service".toList header) :
    (challengeFields header).2.1 = [] := by
  have key : ∀ (fs : List Str) (acc : Str × Str × Str), acc.2.1 = [] →
      (∀ f ∈ fs, HasPrefix f ("service".toList ++ "=".toList) = true →
        f = "service".toList ++ "=".toList ∨ f = "service".toList ++ "=".toList ++ [dquote, dquote]) →
      (fs.foldl scanField acc).2.1 = [] := by
    intro fs
    induction fs with
    | nil => intro acc hacc _; simpa using hacc
    | cons f fs ih =>
      intro acc hacc hfs
      rw [List.foldl_cons]
      exact ih _ (scanField_service acc f hacc (hfs f (List.mem_cons_self _ _)))
        (fun g hg => hfs g (List.mem_cons_of_mem _ hg))
  exact key _ _ rfl h

theorem challengeFields_scope (header : Str) (h : missingOrEmpty "scope".toList header) :
    (challengeFields header).2.2 = [] := by
  have key : ∀ (fs : List Str) (acc : Str × Str × Str), acc.2.2 = [] →
      (∀ f ∈ fs, HasPrefix f ("scope".toList ++ "=".toList) = true →
        f = "scope".toList ++ "=".toList ∨ f = "scope".toList ++ "=".toList ++ [dquote, dquote]) →
      (fs.foldl scanField acc).2.2 = [] := by
    intro fs
    induction fs with
    | nil => intro acc hacc _; simpa using hacc
    | cons f fs ih =>
      intro acc hacc hfs
      rw [List.foldl_cons]
      exact ih _ (scanField_scope acc f hacc (hfs f (List.mem_cons_self _ _)))
        (fun g hg => hfs g (List.mem_cons_of_mem _ hg))
  exact key _ _ rfl h

/-- C8: when one of the fields realm, service, scope of the challenge header is missing
or has an empty value (so also when there is no `scope=` field at all), getJWT returns
the parse error and the world is untouched: no HTTP request is issued. -/
theorem getJWT_incomplete_challenge (env : Env) (w : World) (header : Str)
    (h : missingOrEmpty "realm".toList header ∨ missingOrEmpty "service".toList header ∨
      missingOrEmpty "scope".toList header) :
    getJWT env w header = (.error "Error parsing WWW-Authenticate header".toList, w) := by
  have hc : (challengeFields header).1 = [] ∨ (challengeFields header).2.2 = [] ∨
      (challengeFields header).2.1 = [] := by
    rcases h with h | h | h
    · exact Or.inl (challengeFields_realm header h)
    · exact Or.inr (Or.inr (challengeFields_service header h))
    · exact Or.inr (Or.inl (challengeFields_scope header h))
  unfold getJWT
  simp only [if_pos hc]

theorem getJWT_incomplete_challenge_witness :
    getJWT registry401 emptyWorld "Bearer realm=r.io/auth,service=r.io".toList
      = (.error "Error parsing WWW-Authenticate header".toList, emptyWorld) :=
  getJWT_incomplete_challenge registry401 emptyWorld "Bearer realm=r.io/auth,service=r.io".toList
    (Or.inr (Or.inr (by unfold missingOrEmpty; decide)))

theorem TrimLeft_through (p s cutset : Str) (hp : ∀ x ∈ p, cutset.contains x = true) :
    TrimLeft (p ++ s) cutset = TrimLeft s cutset := by
  induction p with
  | nil => rfl
  | cons a as ih =>
    have ha : cutset.contains a = true := hp a (List.mem_cons_self _ _)
    have has : ∀ x ∈ as, cutset.contains x = true := fun x hx => hp x (List.mem_cons_of_mem _ hx)
    have := ih has
    unfold TrimLeft at this ⊢
    rw [List.cons_append, List.dropWhile_cons, if_pos ha]
    exact this

theorem TrimLeft_stop (c : Char) (s cutset : Str) (hc : cutset.contains c = false) :
    TrimLeft (c :: s) cutset = c :: s := by
  unfold TrimLeft
  rw [List.dropWhile_cons, if_neg (by rw [hc]; exact Bool.false_ne_true)]

theorem TrimRight_stop (c : Char) (s cutset : Str) (hc : cutset.contains c = false) :
    TrimRight (s ++ [c]) cutset = s ++ [c] := by
  unfold TrimRight
  rw [List.reverse_append, List.reverse_singleton, List.singleton_append,
    TrimLeft_stop c _ cutset hc]
  simp

/-- Removing the key from a quoted field, as line 262 does, leaves the quoted value when
every byte of the key text is in the cutset and the quote is not. -/
theorem Trim_key_quoted (key cutset v : Str) (hk : ∀ x ∈ key, cutset.contains x = true)
    (hq : cutset.contains dquote = false) :
    Trim (key ++ quoted v) cutset = quoted v := by
  unfold Trim quoted
  have e : key ++ (dquote :: v ++ [dquote]) = (key ++ dquote :: v) ++ [dquote] := by simp
  rw [e, TrimRight_stop dquote _ cutset hq, ← e, TrimLeft_through key _ cutset hk,
    List.cons_append, TrimLeft_stop dquote _ cutset hq]

/-- Removing the quotes, as line 263 does, from a quoted value that has no quote inside. -/
theorem Trim_quotes (v : Str) (hv : dquote ∉ v) : Trim (quoted v) [dquote] = v := by
  have hP : ∀ x ∈ v, [dquote].contains x = false := by
    intro x hx
    have : x ≠ dquote := fun e => hv (e ▸ hx)
    simp [this]
  have hqq : [dquote].contains dquote = true := by decide
  cases v with
  | nil => decide
  | cons a as =>
    have hR : TrimRight (quoted (a :: as)) [dquote] = dquote :: a :: as := by
      unfold TrimRight quoted
      have e : (dquote :: (a :: as) ++ [dquote]).reverse = [dquote] ++ ((a :: as).reverse ++ [dquote]) := by
        simp
      rw [e, TrimLeft_through [dquote] _ [dquote] (by simp)]
      have hne : (a :: as).reverse ≠ [] := by simp
      obtain ⟨b, bs, hb⟩ := List.exists_cons_of_ne_nil hne
      have hbmem : b ∈ a :: as := by
        have : b ∈ (a :: as).reverse := by rw [hb]; exact List.mem_cons_self _ _
        exact List.mem_reverse.1 this
      rw [hb, List.cons_append, TrimLeft_stop b _ [dquote] (hP b hbmem), ← List.cons_append, ← hb]
      simp
    unfold Trim
    rw [hR, show (dquote :: a :: as) = [dquote] ++ (a :: as) from rfl,
      TrimLeft_through [dquote] _ [dquote] (by simp),
      TrimLeft_stop a as [dquote] (hP a (List.mem_cons_self _ _))]

/-- Quoted values are extracted exactly: from `Bearer realm="R",service="S",scope="C"`,
the three values free of "," and of double quotes, getJWT extracts `R`, `S` and `C`. -/
theorem challengeFields_quoted (R S C : Str)
    (hR : ',' ∉ R ∧ dquote ∉ R) (hS : ',' ∉ S ∧ dquote ∉ S) (hC : ',' ∉ C ∧ dquote ∉ C) :
    challengeFields (bearerChallenge (quoted R) (quoted S) (quoted C)) = (R, S, C) := by
  have hpre : TrimPrefix (bearerChallenge (quoted R) (quoted S) (quoted C)) "Bearer ".toList =
      ("realm=".toList ++ quoted R) ++ ',' :: (("service=".toList ++ quoted S) ++ ',' ::
        ("scope=".toList ++ quoted C)) := by
    unfold TrimPrefix bearerChallenge HasPrefix
    rw [if_pos (by simp [List.isPrefixOf_iff_prefix])]
    exact List.drop_left _ _
  have hcq : ∀ v : Str, ',' ∉ v → ',' ∉ quoted v := by
    intro v hv hmem
    unfold quoted at hmem
    simp only [List.cons_append, List.mem_cons, List.mem_append, List.mem_singleton,
      List.not_mem_nil, or_false] at hmem
    rcases hmem with h | h | h
    · exact absurd h (by decide)
    · exact hv h
    · exact absurd h (by decide)
  have h1 : ',' ∉ "realm=".toList ++ quoted R := by
    intro h
    rcases List.mem_append.1 h with h | h
    · exact absurd h (by decide)
    · exact hcq R hR.1 h
  have h2 : ',' ∉ "service=".toList ++ quoted S := by
    intro h
    rcases List.mem_append.1 h with h | h
    · exact absurd h (by decide)
    · exact hcq S hS.1 h
  have h3 : ',' ∉ "scope=".toList ++ quoted C := by
    intro h
    rcases List.mem_append.1 h with h | h
    · exact absurd h (by decide)
    · exact hcq C hC.1 h
  have f1 : ∀ acc, scanField acc ("realm=".toList ++ quoted R) = (R, acc.2.1, acc.2.2) := by
    intro acc
    have hp : HasPrefix ("realm=".toList ++ quoted R) "realm=".toList = true := rfl
    unfold scanField
    rw [if_pos hp, Trim_key_quoted "realm=".toList "realm=".toList R (by decide) (by decide),
      Trim_quotes R hR.2]
  have f2 : ∀ acc, scanField acc ("service=".toList ++ quoted S) = (acc.1, S, acc.2.2) := by
    intro acc
    have hn : ¬ HasPrefix ("service=".toList ++ quoted S) "realm=".toList = true := by
      have : HasPrefix ("service=".toList ++ quoted S) "realm=".toList = false := rfl
      rw [this]; exact Bool.false_ne_true
    have hp : HasPrefix ("service=".toList ++ quoted S) "service=".toList = true := rfl
    unfold scanField
    rw [if_neg hn, if_pos hp,
      Trim_key_quoted "service=".toList "service=".toList S (by decide) (by decide),
      Trim_quotes S hS.2]
  have f3 : ∀ acc, scanField acc ("scope=".toList ++ quoted C) = (acc.1, acc.2.1, C) := by
    intro acc
    have hn1 : ¬ HasPrefix ("scope=".toList ++ quoted C) "realm=".toList = true := by
      have : HasPrefix ("scope=".toList ++ quoted C) "realm=".toList = false := rfl
      rw [this]; exact Bool.false_ne_true
    have hn2 : ¬ HasPrefix ("scope=".toList ++ quoted C) "service=".toList = true := by
      have : HasPrefix ("scope=".toList ++ quoted C) "service=".toList = false := rfl
      rw [this]; exact Bool.false_ne_true
    have hp : HasPrefix ("scope=".toList ++ quoted C) "scope=".toList = true := rfl
    unfold scanField
    rw [if_neg hn1, if_neg hn2, if_pos hp,
      Trim_key_quoted "scope=".toList "scope=".toList C (by decide) (by decide),
      Trim_quotes C hC.2]
  unfold challengeFields
  simp only [hpre, Split_append_sep _ _ ',' h1, Split_append_sep _ _ ',' h2,
    Split_of_not_mem _ ',' h3, List.foldl_cons, List.foldl_nil, f1, f2, f3]

/-- C3, code evaluated at the failing input: for the challenge `quotedChallenge` (realm
`https://auth.example.com/token`, without "?") getJWT extracts three non-empty values and
requests `realm?cope=<scope>&service=<service>`, not `realm?scope=<scope>&service=<service>`. -/
theorem getJWT_requests_cope :
    challengeFields quotedChallenge =
      ("https://auth.example.com/token".toList, "registry.example.com".toList,
        "repository:library/app:pull".toList) ∧
    (getJWT registry401 emptyWorld quotedChallenge).2.requests =
      [{ url := "https://auth.example.com/token?cope=repository:library/app:pull&service=registry.example.com".toList,
         authorization := [] }] ∧
    (getJWT registry401 emptyWorld quotedChallenge).2.requests ≠
      [{ url := "https://auth.example.com/token".toList ++ "?scope=".toList ++
           "repository:library/app:pull".toList ++ "&service=".toList ++ "registry.example.com".toList,
         authorization := [] }] := by
  decide

/-- C5, code evaluated at the failing input: from
`Bearer realm=auth.io/token,service=registry,scope=pull` (bare values) getJWT extracts
`uth.io/token`, `gistry` and `ull`: `strings.Trim(field, "realm=")` removes every leading
and trailing byte that is one of `r e a l m =`, not the leading text `realm=`. -/
theorem challengeFields_bare_values :
    challengeFields "Bearer realm=auth.io/token,service=registry,scope=pull".toList =
      ("uth.io/token".toList, "gistry".toList, "ull".toList) ∧
    challengeFields "Bearer realm=auth.io/token,service=registry,scope=pull".toList ≠
      ("auth.io/token".toList, "registry".toList, "pull".toList) := by
  decide

/-! ## `downloadFileWithProgress` and the pull -/

theorem getJWT_registry401 (w : World) :
    getJWT registry401 w quotedChallenge =
      (.ok "t".toList, w.issue (mkReq
        "https://auth.example.com/token?cope=repository:library/app:pull&service=registry.example.com".toList [])) := by
  have hc : challengeFields quotedChallenge =
      ("https://auth.example.com/token".toList, "registry.example.com".toList,
        "repository:library/app:pull".toList) := by decide
  have hu : tokenURL "https://auth.example.com/token".toList "registry.example.com".toList
      "repository:library/app:pull".toList =
      "https://auth.example.com/token?cope=repository:library/app:pull&service=registry.example.com".toList := by
    decide
  unfold getJWT
  simp only [hc, hu]
  rfl

theorem sentTo_issue (w : World) (req : HttpReq) (url : Str) :
    sentTo (w.issue req) url = sentTo w url + (if req.url = url then 1 else 0) := by
  unfold sentTo World.issue
  by_cases h : req.url = url <;> simp [List.filter_append, h]

theorem download_registry401 (fuel : Nat) : ∀ (w : World) (token : Str),
    (downloadFileWithProgress registry401 fuel w "https://r.io/v2/app/blobs/sha256:deadbeef".toList
      "./images/r.io/app/v1/deadbeef.tar".toList 10 "deadb".toList token).1 = .running ∧
    sentTo (downloadFileWithProgress registry401 fuel w "https://r.io/v2/app/blobs/sha256:deadbeef".toList
      "./images/r.io/app/v1/deadbeef.tar".toList 10 "deadb".toList token).2
      "https://r.io/v2/app/blobs/sha256:deadbeef".toList
      = sentTo w "https://r.io/v2/app/blobs/sha256:deadbeef".toList + fuel := by
  induction fuel with
  | zero => intro w token; simp [downloadFileWithProgress]
  | succ n ih =>
    intro w token
    have hstep : downloadFileWithProgress registry401 (n + 1) w
        "https://r.io/v2/app/blobs/sha256:deadbeef".toList
        "./images/r.io/app/v1/deadbeef.tar".toList 10 "deadb".toList token =
        downloadFileWithProgress registry401 n
          ((w.issue (mkReq "https://r.io/v2/app/blobs/sha256:deadbeef".toList token)).issue (mkReq
            "https://auth.example.com/token?cope=repository:library/app:pull&service=registry.example.com".toList []))
          "https://r.io/v2/app/blobs/sha256:deadbeef".toList
          "./images/r.io/app/v1/deadbeef.tar".toList 10 "deadb".toList "t".toList := by
      have hreq : registry401.http w.requests
          (mkReq "https://r.io/v2/app/blobs/sha256:deadbeef".toList token) =
          some { statusCode := 401, wwwAuthenticate := quotedChallenge,
                 body := { chunks := [], readError := false } } := by
        have hu : (mkReq "https://r.io/v2/app/blobs/sha256:deadbeef".toList token).url =
            "https://r.io/v2/app/blobs/sha256:deadbeef".toList := rfl
        have : HasPrefix "https://r.io/v2/app/blobs/sha256:deadbeef".toList
            "https://auth.example.com/".toList = false := by decide
        simp only [registry401, hu, this]
        rfl
      have hok : registry401.newRequestOk "https://r.io/v2/app/blobs/sha256:deadbeef".toList = true := rfl
      rw [downloadFileWithProgress]
      simp only [hok, hreq, getJWT_registry401]
      simp
    rw [hstep]
    obtain ⟨h1, h2⟩ := ih ((w.issue (mkReq "https://r.io/v2/app/blobs/sha256:deadbeef".toList token)).issue
      (mkReq "https://auth.example.com/token?cope=repository:library/app:pull&service=registry.example.com".toList []))
      "t".toList
    refine ⟨h1, ?_⟩
    rw [h2, sentTo_issue, sentTo_issue]
    have e1 : (mkReq "https://r.io/v2/app/blobs/sha256:deadbeef".toList token).url =
        "https://r.io/v2/app/blobs/sha256:deadbeef".toList := rfl
    have e2 : ¬ (mkReq "https://auth.example.com/token?cope=repository:library/app:pull&service=registry.example.com".toList []).url =
        "https://r.io/v2/app/blobs/sha256:deadbeef".toList := by decide
    rw [if_pos e1, if_neg e2]
    omega

/-- The sibling path: against the same registry the manifest fetch of handlePull stops
after its second 401 (two requests to the registry, one token exchange in between)
with the fatal status-401 error, because line 128 retries only when `token == ""`. -/
theorem handlePull_second_401_is_fatal :
    handlePull registry401 2 emptyWorld
      ["imagepuller".toList, "pull".toList, "r.io/app:v1".toList] [] =
      (.fatal (.manifestStatus 401),
        { emptyWorld with requests :=
          [{ url := "https://r.io/v2/app/manifests/v1".toList, authorization := [] },
           { url := "https://auth.example.com/token?cope=repository:library/app:pull&service=registry.example.com".toList,
             authorization := [] },
           { url := "https://r.io/v2/app/manifests/v1".toList, authorization := "Bearer t".toList }] }) := by
  decide

/-- C1, code evaluated at the failing input: against a registry that answers 401 to
every request for the blob (anonymous or with the bearer token it was given),
downloadFileWithProgress never ends in an error: with a budget of `fuel` nested calls
it is still running after `fuel` requests to the registry for that blob, each 401
being followed by a new token exchange and a new call. -/
theorem downloadFileWithProgress_retries_forever (fuel : Nat) :
    (downloadFileWithProgress registry401 fuel emptyWorld
      "https://r.io/v2/app/blobs/sha256:deadbeef".toList
      "./images/r.io/app/v1/deadbeef.tar".toList 10 "deadb".toList []).1 = .running ∧
    sentTo (downloadFileWithProgress registry401 fuel emptyWorld
      "https://r.io/v2/app/blobs/sha256:deadbeef".toList
      "./images/r.io/app/v1/deadbeef.tar".toList 10 "deadb".toList []).2
      "https://r.io/v2/app/blobs/sha256:deadbeef".toList = fuel := by
  have h := download_registry401 fuel emptyWorld []
  refine ⟨h.1, ?_⟩
  rw [h.2]
  simp [sentTo, emptyWorld]

/-- C2, as stated, fails: with the destination file already at the expected size (ten
bytes), downloadFileWithProgress sends the blob request before it looks at the file
(one request, not zero, when the registry answers 200), and when the network is down
it returns the transport error instead of success. -/
theorem download_existing_file_requests :
    (layerOnDisk.files.lookup "./images/r.io/app/v1/deadbeef.tar".toList).map List.length = some 10 ∧
    downloadFileWithProgress registry200 1 layerOnDisk
      "https://r.io/v2/app/blobs/sha256:deadbeef".toList
      "./images/r.io/app/v1/deadbeef.tar".toList 10 "deadb".toList [] =
      (.ok (), { layerOnDisk with requests :=
        [{ url := "https://r.io/v2/app/blobs/sha256:deadbeef".toList, authorization := [] }] }) ∧
    downloadFileWithProgress offline 1 layerOnDisk
      "https://r.io/v2/app/blobs/sha256:deadbeef".toList
      "./images/r.io/app/v1/deadbeef.tar".toList 10 "deadb".toList [] =
      (.error "client.Do".toList, { layerOnDisk with requests :=
        [{ url := "https://r.io/v2/app/blobs/sha256:deadbeef".toList, authorization := [] }] }) := by
  decide

theorem getJWT_frame (env : Env) (w : World) (header : Str) :
    (getJWT env w header).2.files = w.files ∧ (getJWT env w header).2.stdout = w.stdout ∧
    ∃ extra, (getJWT env w header).2.requests = w.requests ++ extra := by
  unfold getJWT
  simp only
  split_ifs
  · exact ⟨rfl, rfl, [], by simp⟩
  · exact ⟨rfl, rfl, [], by simp⟩
  · split
    · exact ⟨rfl, rfl, _, rfl⟩
    · split
      · exact ⟨rfl, rfl, _, rfl⟩
      · exact ⟨rfl, rfl, _, rfl⟩

theorem saveBody_skip (env : Env) (w : World) (resp : HttpResp) (dest filename content : Str)
    (Size : Int) (hfile : w.files.lookup dest = some content)
    (hsize : (content.length : Int) = Size) :
    saveBody env w resp dest Size filename = (.ok (), w) := by
  unfold saveBody
  simp only [hfile, hsize, decide_True, if_true]

/-- One call of downloadFileWithProgress when the destination file is complete: the
request and retry steps of lines 180-199, then success. -/
theorem download_complete_step (env : Env) (fuel : Nat) (w : World)
    (url dest filename token content : Str) (Size : Int)
    (hfile : w.files.lookup dest = some content) (hsize : (content.length : Int) = Size) :
    downloadFileWithProgress env (fuel + 1) w url dest Size filename token =
      if !env.newRequestOk url then (.fatal .newRequest, w)
      else
        match env.http w.requests (mkReq url token) with
        | none => (.error "client.Do".toList, w.issue (mkReq url token))
        | some resp =>
          if resp.statusCode = 401 then
            match getJWT env (w.issue (mkReq url token)) resp.wwwAuthenticate with
            | (.ok token, w) => downloadFileWithProgress env fuel w url dest Size filename token
            | (.error _, w) => (.fatal .authFail, w)
            | (.fatal f, w) => (.fatal f, w)
            | (.panic, w) => (.panic, w)
            | (.running, w) => (.running, w)
          else (.ok (), w.issue (mkReq url token)) := by
  rw [downloadFileWithProgress]
  have hs : ∀ resp, saveBody env (w.issue (mkReq url token)) resp dest Size filename =
      (.ok (), w.issue (mkReq url token)) :=
    fun resp => saveBody_skip env _ resp dest filename content Size hfile hsize
  simp only [hs]

theorem download_complete_frame (env : Env) (url dest filename content : Str) (Size : Int)
    (hsize : (content.length : Int) = Size) (fuel : Nat) :
    ∀ (w : World) (token : Str), w.files.lookup dest = some content →
      (downloadFileWithProgress env fuel w url dest Size filename token).2.files = w.files ∧
      (downloadFileWithProgress env fuel w url dest Size filename token).2.stdout = w.stdout ∧
      ∃ extra, (downloadFileWithProgress env fuel w url dest Size filename token).2.requests =
        w.requests ++ extra := by
  induction fuel with
  | zero => intro w token _; exact ⟨rfl, rfl, [], by simp [downloadFileWithProgress]⟩
  | succ n ih =>
    intro w token hfile
    rw [download_complete_step env n w url dest filename token content Size hfile hsize]
    by_cases hn : env.newRequestOk url = true
    swap
    · have : env.newRequestOk url = false := by simpa using hn
      simp only [this]
      exact ⟨rfl, rfl, [], by simp⟩
    simp only [hn]
    cases hh : env.http w.requests (mkReq url token) with
    | none => exact ⟨rfl, rfl, [mkReq url token], rfl⟩
    | some resp =>
      by_cases hst : resp.statusCode = 401
      swap
      · simp only [Bool.not_true, Bool.false_eq_true, if_false, if_neg hst]
        exact ⟨rfl, rfl, [mkReq url token], rfl⟩
      simp only [Bool.not_true, Bool.false_eq_true, if_false, if_pos hst]
      obtain ⟨gf, gs, ge, gr⟩ := getJWT_frame env (w.issue (mkReq url token)) resp.wwwAuthenticate
      rcases hg : getJWT env (w.issue (mkReq url token)) resp.wwwAuthenticate with ⟨o, w1⟩
      rw [hg] at gf gs gr
      have gf1 : w1.files = w.files := gf
      have gs1 : w1.stdout = w.stdout := gs
      have gr1 : w1.requests = w.requests ++ ([mkReq url token] ++ ge) := by
        have : w1.requests = (w.requests ++ [mkReq url token]) ++ ge := gr
        rw [this, List.append_assoc]
      cases o with
      | ok t =>
        obtain ⟨h1, h2, e, h3⟩ := ih w1 t (by rw [gf1]; exact hfile)
        refine ⟨h1.trans gf1, h2.trans gs1, [mkReq url token] ++ ge ++ e, ?_⟩
        show (downloadFileWithProgress env n w1 url dest Size filename t).2.requests = _
        rw [h3, gr1]; simp
      | error m => exact ⟨gf1, gs1, _, gr1⟩
      | fatal f => exact ⟨gf1, gs1, _, gr1⟩
      | panic => exact ⟨gf1, gs1, _, gr1⟩
      | running => exact ⟨gf1, gs1, _, gr1⟩

theorem download_complete_first (env : Env) (url dest filename token content : Str) (Size : Int)
    (w : World) (hfile : w.files.lookup dest = some content)
    (hsize : (content.length : Int) = Size) (fuel : Nat) (hn : env.newRequestOk url = true) :
    ∃ rest, (downloadFileWithProgress env (fuel + 1) w url dest Size filename token).2.requests =
      w.requests ++ mkReq url token :: rest := by
  rw [download_complete_step env fuel w url dest filename token content Size hfile hsize]
  simp only [hn, Bool.not_true, Bool.false_eq_true, if_false]
  cases hh : env.http w.requests (mkReq url token) with
  | none => exact ⟨[], rfl⟩
  | some resp =>
    by_cases hst : resp.statusCode = 401
    swap
    · simp only [if_neg hst]; exact ⟨[], rfl⟩
    simp only [if_pos hst]
    obtain ⟨_, _, ge, gr⟩ := getJWT_frame env (w.issue (mkReq url token)) resp.wwwAuthenticate
    rcases hg : getJWT env (w.issue (mkReq url token)) resp.wwwAuthenticate with ⟨o, w1⟩
    rw [hg] at gr
    have gr1 : w1.requests = w.requests ++ mkReq url token :: ge := by
      have : w1.requests = (w.requests ++ [mkReq url token]) ++ ge := gr
      rw [this]; simp
    have hf1 : w1.files.lookup dest = some content := by
      have := (getJWT_frame env (w.issue (mkReq url token)) resp.wwwAuthenticate).1
      rw [hg] at this
      have e : w1.files = w.files := this
      rw [e]; exact hfile
    cases o with
    | ok t =>
      obtain ⟨_, _, e, h3⟩ := download_complete_frame env url dest filename content Size hsize
        fuel w1 t hf1
      refine ⟨ge ++ e, ?_⟩
      show (downloadFileWithProgress env fuel w1 url dest Size filename t).2.requests = _
      rw [h3, gr1]; simp
    | error m => exact ⟨ge, gr1⟩
    | fatal f => exact ⟨ge, gr1⟩
    | panic => exact ⟨ge, gr1⟩
    | running => exact ⟨ge, gr1⟩

theorem download_complete_ok (env : Env) (url dest filename content : Str) (Size : Int)
    (hsize : (content.length : Int) = Size) (fuel : Nat) :
    ∀ (w : World) (token : Str), w.files.lookup dest = some content →
      (downloadFileWithProgress env fuel w url dest Size filename token).1 = .ok () →
      ∃ hist tok resp,
        (downloadFileWithProgress env fuel w url dest Size filename token).2.requests =
          hist ++ [mkReq url tok] ∧
        env.http hist (mkReq url tok) = some resp ∧ resp.statusCode ≠ 401 := by
  induction fuel with
  | zero => intro w token _ h; simp [downloadFileWithProgress] at h
  | succ n ih =>
    intro w token hfile
    rw [download_complete_step env n w url dest filename token content Size hfile hsize]
    by_cases hn : env.newRequestOk url = true
    swap
    · have : env.newRequestOk url = false := by simpa using hn
      simp only [this]
      intro h; simp at h
    simp only [hn, Bool.not_true, Bool.false_eq_true, if_false]
    cases hh : env.http w.requests (mkReq url token) with
    | none => intro h; simp at h
    | some resp =>
      by_cases hst : resp.statusCode = 401
      swap
      · simp only [if_neg hst]
        intro _
        exact ⟨w.requests, token, resp, rfl, hh, hst⟩
      simp only [if_pos hst]
      have gf := (getJWT_frame env (w.issue (mkReq url token)) resp.wwwAuthenticate).1
      rcases hg : getJWT env (w.issue (mkReq url token)) resp.wwwAuthenticate with ⟨o, w1⟩
      rw [hg] at gf
      have gf1 : w1.files = w.files := gf
      cases o with
      | ok t => exact ih w1 t (by rw [gf1]; exact hfile)
      | error m => intro h; simp at h
      | fatal f => intro h; simp at h
      | panic => intro h; simp at h
      | running => intro h; simp at h

theorem retryRounds_files (env : Env) (url : Str) (n : Nat) :
    ∀ (w : World) (token : Str) (wn : World) (tn : Str),
      retryRounds env url n w token = some (wn, tn) → wn.files = w.files := by
  induction n with
  | zero =>
    intro w token wn tn h
    simp only [retryRounds, Option.some.injEq, Prod.mk.injEq] at h
    rw [← h.1]
  | succ n ih =>
    intro w token wn tn h
    rw [retryRounds] at h
    cases hh : env.http w.requests (mkReq url token) with
    | none => rw [hh] at h; simp at h
    | some resp =>
      rw [hh] at h
      by_cases hst : resp.statusCode = 401
      swap
      · simp [hst] at h
      simp only [if_pos hst] at h
      have gf := (getJWT_frame env (w.issue (mkReq url token)) resp.wwwAuthenticate).1
      rcases hg : getJWT env (w.issue (mkReq url token)) resp.wwwAuthenticate with ⟨o, w1⟩
      rw [hg] at gf h
      have gf1 : w1.files = w.files := gf
      cases o with
      | ok t => exact (ih w1 t wn tn h).trans gf1
      | error m => simp at h
      | fatal f => simp at h
      | panic => simp at h
      | running => simp at h

theorem download_complete_after (env : Env) (url dest filename content : Str) (Size : Int)
    (hsize : (content.length : Int) = Size) (hn : env.newRequestOk url = true) (n : Nat) :
    ∀ (fuel : Nat) (w : World) (token : Str) (wn : World) (tn : Str) (resp : HttpResp),
      w.files.lookup dest = some content →
      retryRounds env url n w token = some (wn, tn) →
      env.http wn.requests (mkReq url tn) = some resp → resp.statusCode ≠ 401 → n < fuel →
      downloadFileWithProgress env fuel w url dest Size filename token =
        (.ok (), wn.issue (mkReq url tn)) := by
  induction n with
  | zero =>
    intro fuel w token wn tn resp hfile hr hresp hst hlt
    simp only [retryRounds, Option.some.injEq, Prod.mk.injEq] at hr
    obtain ⟨rfl, rfl⟩ := hr
    obtain ⟨f, rfl⟩ : ∃ f, fuel = f + 1 := ⟨fuel - 1, by omega⟩
    rw [download_complete_step env f w url dest filename token content Size hfile hsize]
    simp only [hn, Bool.not_true, Bool.false_eq_true, if_false, hresp, if_neg hst]
  | succ n ih =>
    intro fuel w token wn tn resp hfile hr hresp hst hlt
    obtain ⟨f, rfl⟩ : ∃ f, fuel = f + 1 := ⟨fuel - 1, by omega⟩
    rw [download_complete_step env f w url dest filename token content Size hfile hsize]
    simp only [hn, Bool.not_true, Bool.false_eq_true, if_false]
    rw [retryRounds] at hr
    cases hh : env.http w.requests (mkReq url token) with
    | none => rw [hh] at hr; simp at hr
    | some resp0 =>
      rw [hh] at hr
      by_cases hst0 : resp0.statusCode = 401
      swap
      · simp [hst0] at hr
      simp only [if_pos hst0] at hr ⊢
      have gf := (getJWT_frame env (w.issue (mkReq url token)) resp0.wwwAuthenticate).1
      rcases hg : getJWT env (w.issue (mkReq url token)) resp0.wwwAuthenticate with ⟨o, w1⟩
      rw [hg] at gf hr
      have gf1 : w1.files = w.files := gf
      cases o with
      | ok t =>
        exact ih f w1 t wn tn resp (by rw [gf1]; exact hfile) hr hresp hst (by omega)
      | error m => simp at hr
      | fatal f => simp at hr
      | panic => simp at hr
      | running => simp at hr

/-- C2, amended: when the destination path already exists as a file whose size equals
the expected size, downloadFileWithProgress, whatever the budget `fuel` and on every path,
(1) leaves every file and the standard output unchanged; (2) does not make zero requests:
when `http.NewRequest` succeeds it sends the blob GET before it looks at the file, and
(3) when `http.NewRequest` fails it ends in the fatal error with no request; (4) it
returns success only when the last request it sent is a GET for the blob answered with a
status other than 401; and (5) it does return success, sending nothing after that GET, as
soon as a GET for the blob is answered with a status other than 401, be it the first
one or the retry after `n` rounds of 401 and token exchange. -/
theorem downloadFileWithProgress_complete_file (env : Env) (w : World)
    (url dest filename token content : Str) (Size : Int)
    (hfile : w.files.lookup dest = some content) (hsize : (content.length : Int) = Size) :
    (∀ fuel, (downloadFileWithProgress env fuel w url dest Size filename token).2.files = w.files ∧
      (downloadFileWithProgress env fuel w url dest Size filename token).2.stdout = w.stdout) ∧
    (∀ fuel, env.newRequestOk url = true →
      ∃ rest, (downloadFileWithProgress env (fuel + 1) w url dest Size filename token).2.requests =
        w.requests ++ mkReq url token :: rest) ∧
    (∀ fuel, env.newRequestOk url = false →
      downloadFileWithProgress env (fuel + 1) w url dest Size filename token =
        (.fatal .newRequest, w)) ∧
    (∀ fuel, (downloadFileWithProgress env fuel w url dest Size filename token).1 = .ok () →
      ∃ hist tok resp,
        (downloadFileWithProgress env fuel w url dest Size filename token).2.requests =
          hist ++ [mkReq url tok] ∧
        env.http hist (mkReq url tok) = some resp ∧ resp.statusCode ≠ 401) ∧
    (∀ n fuel wn tn resp, env.newRequestOk url = true →
      retryRounds env url n w token = some (wn, tn) →
      env.http wn.requests (mkReq url tn) = some resp → resp.statusCode ≠ 401 → n < fuel →
      downloadFileWithProgress env fuel w url dest Size filename token =
        (.ok (), wn.issue (mkReq url tn)) ∧ wn.files = w.files) := by
  refine ⟨?_, ?_, ?_, ?_, ?_⟩
  · intro fuel
    obtain ⟨h1, h2, _⟩ := download_complete_frame env url dest filename content Size hsize
      fuel w token hfile
    exact ⟨h1, h2⟩
  · intro fuel hn
    exact download_complete_first env url dest filename token content Size w hfile hsize fuel hn
  · intro fuel hn
    rw [download_complete_step env fuel w url dest filename token content Size hfile hsize]
    simp [hn]
  · intro fuel
    exact download_complete_ok env url dest filename content Size hsize fuel w token hfile
  · intro n fuel wn tn resp hn hr hresp hst hlt
    exact ⟨download_complete_after env url dest filename content Size hsize hn n fuel w token
      wn tn resp hfile hr hresp hst hlt, retryRounds_files env url n w token wn tn hr⟩

theorem downloadFileWithProgress_complete_file_witness :
    downloadFileWithProgress registryAuth 2 layerOnDisk
      "https://r.io/v2/app/blobs/sha256:deadbeef".toList
      "./images/r.io/app/v1/deadbeef.tar".toList 10 "deadb".toList [] =
      (.ok (), { layerOnDisk with requests :=
        [{ url := "https://r.io/v2/app/blobs/sha256:deadbeef".toList, authorization := [] },
         { url := "https://auth.example.com/token?cope=repository:library/app:pull&service=registry.example.com".toList,
           authorization := [] },
         { url := "https://r.io/v2/app/blobs/sha256:deadbeef".toList,
           authorization := "Bearer t".toList }] }) :=
  ((downloadFileWithProgress_complete_file registryAuth layerOnDisk
    "https://r.io/v2/app/blobs/sha256:deadbeef".toList
    "./images/r.io/app/v1/deadbeef.tar".toList "deadb".toList [] "0123456789".toList 10
    (by decide) (by decide)).2.2.2.2 1 2
    { layerOnDisk with requests :=
        [{ url := "https://r.io/v2/app/blobs/sha256:deadbeef".toList, authorization := [] },
         { url := "https://auth.example.com/token?cope=repository:library/app:pull&service=registry.example.com".toList,
           authorization := [] }] }
    "t".toList
    { statusCode := 200, wwwAuthenticate := [],
      body := { chunks := ["0123456789".toList], readError := false } }
    (by decide) (by decide) (by decide) (by decide) (by decide)).1

/-- A digest that does not split into exactly two parts ends the layer step in the
invalid-image error, nothing being sent. -/
theorem layerStep_invalid_digest (env : Env) (fuel : Nat) (w : World)
    (registryHost imageName name tag token : Str) (v : Descriptor)
    (h : (Split v.digest ':').length ≠ 2) :
    layerStep env fuel w registryHost imageName name tag token v =
      (.fatal (.invalidImage v.digest), w) := by
  unfold layerStep
  simp only [if_pos h]

/-- For a digest `alg:hex` with one ":" and a hex part of at least 5 bytes, the layer
step reaches the download, with destination `<dir>/hex.tar` and label `hex[:5]`. -/
theorem layerStep_download (env : Env) (fuel : Nat) (w : World)
    (registryHost imageName name tag token alg hex mediaType : Str) (size : Int)
    (halg : ':' ∉ alg) (hhex : ':' ∉ hex) (hlen : 5 ≤ hex.length) :
    layerStep env fuel w registryHost imageName name tag token
        { mediaType := mediaType, size := size, digest := alg ++ ':' :: hex } =
      match downloadFileWithProgress env fuel w (blobURL registryHost imageName (alg ++ ':' :: hex))
          (imageDir registryHost name tag ++ "/".toList ++ hex ++ ".tar".toList) size
          (hex.take 5) token with
      | (.ok _, w) => (.ok (), printComplete w (hex.take 5))
      | (.error _, w) => (.fatal .pullLayer, w)
      | (.fatal f, w) => (.fatal f, w)
      | (.panic, w) => (.panic, w)
      | (.running, w) => (.running, w) := by
  have hs : Split (alg ++ ':' :: hex) ':' = [alg, hex] := by
    rw [Split_append_sep alg hex ':' halg, Split_of_not_mem hex ':' hhex]
  have h5 : sliceTo hex 5 = some (hex.take 5) := by
    unfold sliceTo; rw [if_pos hlen]
  unfold layerStep
  simp only [hs]
  rw [if_neg (by simp)]
  simp only [List.getElem?_cons_succ, List.getElem?_cons_zero, h5]

/-- C6, code evaluated at the failing input: for the layer digest `sha256:abc` (one ":",
both parts non-empty) the layer step panics on the slice `parts[1][:5]` while the
arguments of the download call are evaluated: no request is sent and no `abc.tar` is
written. -/
theorem layerStep_short_hex (env : Env) (fuel : Nat) (w : World)
    (registryHost imageName name tag token mediaType : Str) (size : Int) :
    (Split "sha256:abc".toList ':').length = 2 ∧
    layerStep env fuel w registryHost imageName name tag token
      { mediaType := mediaType, size := size, digest := "sha256:abc".toList } = (.panic, w) := by
  exact ⟨by decide, rfl⟩

end ImagePuller
